import Mathlib

/-!
Verification of the WAV muxer/demuxer (rust-av/wav) against its
natural-language specification.

Shallow embedding notes:
* Byte windows are `List Nat` with each byte in `0..255`; all inputs built in
  theorems use the little-endian encoders below, which only emit bytes < 256.
* The nom combinators used by the source all come from `nom::*::complete`,
  so they can fail with `Err::Error` (carrying an error kind) but never with
  `Err::Incomplete`.  The result type below still has an `incomplete`
  constructor because `WavDemuxer::read_headers` pattern-matches on it; we
  prove it is never produced.
* The error value in the source carries the input slice where the failure
  happened; no claim depends on it, so the embedding keeps only the kind.
* Machine integers are modelled as `Nat`; wrap-around is made explicit with
  `% 2 ^ 16` / `% 2 ^ 32` exactly where the Rust operation can overflow
  (u16 shifts, u32 multiplications).  u64 arithmetic in duration and
  timestamp computation cannot overflow for values reachable from real
  inputs (all operands stem from u32 fields), so it is kept as plain `Nat`.
  Rust division by zero panics; theorems touching an unguarded division
  carry the corresponding nonzero hypothesis.
-/

/-- One byte window, each entry a byte value. -/
abbrev Bytes := List Nat

/-- Little-endian encoding of a u16 value (2 bytes). -/
def u16le (x : Nat) : Bytes := [x % 256, x / 256 % 256]

/-- Little-endian encoding of a u32 value (4 bytes). -/
def u32le (x : Nat) : Bytes :=
  [x % 256, x / 256 % 256, x / 65536 % 256, x / 16777216 % 256]

/-- The nom error kinds produced by the parsers the source uses
(`ErrorKind::Eof` from `take`/`le_u16`/`le_u32`, `ErrorKind::Tag` from `tag`,
`ErrorKind::Verify` from `verify`). -/
inductive NomEK where
  | eofEK
  | tagEK
  | verifyEK
deriving DecidableEq

/-- `parser::ErrorKind`: either a nom kind or `Custom(code)`. -/
inductive EKind where
  | nomK (k : NomEK)
  | custom (code : Nat)
deriving DecidableEq

/-- `nom::Err`: `Error`, `Failure`, or `Incomplete(Needed)`.  `Needed::Size n`
is `incomplete (some n)`, `Needed::Unknown` is `incomplete none`.  The
`complete`-flavour parsers used by this crate never produce `failure` or
`incomplete`; both constructors exist because `read_headers` matches on
them. -/
inductive NErr where
  | nerror (k : EKind)
  | nfailure (k : EKind)
  | incomplete (n : Option Nat)
deriving DecidableEq

/-- `IResult<&[u8], A, Error>`: on success the unconsumed rest and the value. -/
abbrev PResult (α : Type) := Except NErr (Bytes × α)

/-- Sequencing of parsers (nom's `and_then` / tuple chaining). -/
def pbind {α β : Type} (r : PResult α) (f : Bytes → α → PResult β) : PResult β :=
  match r with
  | .ok (i, a) => f i a
  | .error e => .error e

/-- `nom::bytes::complete::take(n)`: fails with `ErrorKind::Eof` when fewer
than `n` bytes remain. -/
def takeP (n : Nat) (input : Bytes) : PResult Bytes :=
  if n ≤ input.length then .ok (input.drop n, input.take n)
  else .error (.nerror (.nomK .eofEK))

/-- `nom::bytes::complete::tag(t)`: fails with `ErrorKind::Tag` unless `t` is
a prefix of the input. -/
def tagP (t : Bytes) (input : Bytes) : PResult Bytes :=
  if input.take t.length = t then .ok (input.drop t.length, t)
  else .error (.nerror (.nomK .tagEK))

/-- `nom::number::complete::le_u16`. -/
def leU16 (input : Bytes) : PResult Nat :=
  match input with
  | b0 :: b1 :: rest => .ok (rest, b0 + 256 * b1)
  | _ => .error (.nerror (.nomK .eofEK))

/-- `nom::number::complete::le_u32`. -/
def leU32 (input : Bytes) : PResult Nat :=
  match input with
  | b0 :: b1 :: b2 :: b3 :: rest =>
      .ok (rest, b0 + 256 * b1 + 65536 * b2 + 16777216 * b3)
  | _ => .error (.nerror (.nomK .eofEK))

def riffTag : Bytes := [82, 73, 70, 70]   -- "RIFF"
def waveTag : Bytes := [87, 65, 86, 69]   -- "WAVE"
def fmtTag  : Bytes := [102, 109, 116, 32] -- "fmt "
def factTag : Bytes := [102, 97, 99, 116]  -- "fact"
def dataTag : Bytes := [100, 97, 116, 97]  -- "data"

/-- `parser::Header`: the RIFF/WAVE prologue. -/
structure RiffHeader where
  magic1 : Bytes
  file_size : Nat
  magic2 : Bytes
deriving DecidableEq

/-- `parser::header`: `tuple((tag(b"RIFF"), le_u32, tag(b"WAVE")))`. -/
def headerP (input : Bytes) : PResult RiffHeader :=
  pbind (tagP riffTag input) fun i1 m1 =>
    pbind (leU32 i1) fun i2 sz =>
      pbind (tagP waveTag i2) fun i3 m2 =>
        .ok (i3, ⟨m1, sz, m2⟩)

/-- `parser::Format` (fmt chunk contents).  `derive(Default)` zeroes every
numeric field and leaves `edata` as `None`. -/
structure Format where
  format_tag : Nat := 0
  channels : Nat := 0
  samples_per_sec : Nat := 0
  avg_bytes_per_sec : Nat := 0
  block_align : Nat := 0
  bits_per_sample : Nat := 0
  edata : Option Bytes := none
deriving DecidableEq, Inhabited

/-- `parser::read_chunks_type`: generic chunk header, 4-byte tag + LE u32
size. -/
def readChunksType (input : Bytes) : PResult (Bytes × Nat) :=
  pbind (takeP 4 input) fun i1 t =>
    pbind (leU32 i1) fun i2 sz =>
      .ok (i2, (t, sz))

/-- `parser::extradata(chunk_size)`: rejects `chunk_size < 17` with custom
error 100; otherwise reads a u16 length and, when `chunk_size ≥ 18`, that
many bytes (`cond` yields `None` for `chunk_size == 17`). -/
def extradataP (chunk_size : Nat) (input : Bytes) : PResult (Option Bytes) :=
  if chunk_size < 17 then .error (.nerror (.custom 100))
  else
    pbind (leU16 input) fun i sz =>
      if 18 ≤ chunk_size then
        pbind (takeP sz i) fun i2 d => .ok (i2, some d)
      else
        .ok (i, none)

/-- `parser::bits_per_sample(chunk_size)`: explicit LE u16 when
`chunk_size ≥ 16`, else the default 8 without consuming input. -/
def bitsPerSampleP (chunk_size : Nat) (input : Bytes) : PResult Nat :=
  if 16 ≤ chunk_size then leU16 input else .ok (input, 8)

/-- `verify(read_chunks_type, |t| t.0 == b"fmt ")`: nom's `verify` reports
`ErrorKind::Verify` when the predicate fails. -/
def verifyFmtChunk (input : Bytes) : PResult (Bytes × Nat) :=
  pbind (readChunksType input) fun i tc =>
    if tc.1 = fmtTag then .ok (i, tc)
    else .error (.nerror (.nomK .verifyEK))

/-- `parser::parse_fmt`: verified "fmt " chunk header, then the fixed fields,
`bits_per_sample`, and `extradata` keyed by the declared chunk size. -/
def parseFmt (input : Bytes) : PResult Format :=
  pbind (verifyFmtChunk input)
    fun i tc =>
      pbind (leU16 i) fun i1 ftag =>
        pbind (leU16 i1) fun i2 ch =>
          pbind (leU32 i2) fun i3 sr =>
            pbind (leU32 i3) fun i4 avg =>
              pbind (leU16 i4) fun i5 ba =>
                pbind (bitsPerSampleP tc.2 i5) fun i6 bits =>
                  pbind (extradataP tc.2 i6) fun i7 ed =>
                    .ok (i7, { format_tag := ftag, channels := ch,
                               samples_per_sec := sr, avg_bytes_per_sec := avg,
                               block_align := ba, bits_per_sample := bits,
                               edata := ed })

/-- `parser::parse_header_fmt`: prologue followed by the fmt chunk, keeping
only the format. -/
def parseHeaderFmt (input : Bytes) : PResult Format :=
  pbind (headerP input) fun i _ => parseFmt i

/-- `parser::read_duration`. -/
def readDuration (input : Bytes) : PResult Nat := leU32 input

/-- `parser::skip_chunk`. -/
def skipChunk (input : Bytes) (chunk_size : Nat) : PResult Bytes :=
  takeP chunk_size input

/-- `parser::get_data`. -/
def getData (input : Bytes) (data_size : Nat) : PResult Bytes :=
  takeP data_size input

/-- `lib.rs`: `PCM_FLOAT_FORMAT_ID`. -/
def PCM_FLOAT_FORMAT_ID : Nat := 3

/-- `lib.rs`: `WAV_CODEC_REGISTER`. -/
def wavCodecRegister : List (Nat × String) :=
  [(0x0000, "unknown"), (0x0001, "pcm"), (0x0002, "ms-adpcm"),
   (PCM_FLOAT_FORMAT_ID, "pcm"), (0x0011, "ima-adpcm-ms"),
   (0x0061, "adpcm-dk4"), (0x0062, "adpcm-dk3"), (0x0401, "imc"),
   (0x0402, "iac"), (0x0500, "on2avc-500"), (0x0501, "on2avc-501")]

/-- `lib.rs`: `find_codec_from_wav_twocc`. -/
def findCodecFromWavTwocc (tcc : Nat) : Option String :=
  (wavCodecRegister.find? (fun p => p.1 = tcc)).map (fun p => p.2)

/-- `demuxer::WavDemuxer` session state.  `derive(Default)` gives the default
format, zero offsets/duration, empty codec name and `is_pcm == false`. -/
structure WavDemuxer where
  format : Format := {}
  data_pos : Nat := 0
  data_end : Nat := 0
  cname : String := ""
  is_pcm : Bool := false
  duration : Nat := 0
deriving DecidableEq, Inhabited

/-- `WavDemuxer::analyze_fmt`: resolve the codec name, set `is_pcm`, install
the format, and backfill `avg_bytes_per_sec` for PCM when it is declared 0.
The u32 multiplication `block_align as u32 * samples_per_sec` wraps, hence
the explicit `% 2 ^ 32`. -/
def analyzeFmt (s : WavDemuxer) (f : Format) : WavDemuxer :=
  let cname := (findCodecFromWavTwocc f.format_tag).getD "unknown"
  let ispcm : Bool := cname = "pcm"
  { s with
    cname := cname
    is_pcm := ispcm
    format :=
      { f with
        avg_bytes_per_sec :=
          if ispcm ∧ f.avg_bytes_per_sec = 0 then
            f.block_align * f.samples_per_sec % 2 ^ 32
          else f.avg_bytes_per_sec } }

/-- The duration computed in the `data` branch of `parse_headers`.  The Rust
code divides u64 values; the first branch panics when `samples_per_sec == 0`
(theorems about it carry that hypothesis). -/
def dataDuration (s : WavDemuxer) (data_size : Nat) : Nat :=
  if s.duration ≠ 0 then s.duration * 1000 / s.format.samples_per_sec
  else if 0 < s.format.avg_bytes_per_sec then
    data_size * 1000 / s.format.avg_bytes_per_sec
  else 0

/-- The post-fmt chunk-scan loop of `WavDemuxer::parse_headers`, with explicit
fuel for structural recursion.  Each iteration consumes at least 8 bytes, so
fuel `input.length + 1` (used by `scanChunks`) never runs out before the
`while let Ok` condition fails; `total` is the length of the window
`parse_headers` received, so `total - rest.length` is `input.offset(rest)`. -/
def scanChunksF (fuel : Nat) (s : WavDemuxer) (total : Nat) (i : Bytes) :
    Except NErr (Bytes × WavDemuxer) :=
  match fuel with
  | 0 => .ok (i, s)
  | fuel + 1 =>
    match readChunksType i with
    | .error _ => .ok (i, s)
    | .ok (inp, (ctype, csize)) =>
      if ctype = factTag then
        if csize ≠ 4 then .error (.nerror (.custom 1))
        else
          match readDuration inp with
          | .error e => .error e
          | .ok (i2, d) => scanChunksF fuel { s with duration := d } total i2
      else if ctype = dataTag then
        let dp := total - inp.length
        .ok (inp, { s with
                    data_pos := dp
                    data_end := dp + csize
                    duration := dataDuration s csize })
      else
        match skipChunk inp csize with
        | .error e => .error e
        | .ok (i2, _) => scanChunksF fuel s total i2

/-- The chunk-scan loop at its call site (fuel is provably sufficient). -/
def scanChunks (s : WavDemuxer) (total : Nat) (i : Bytes) :
    Except NErr (Bytes × WavDemuxer) :=
  scanChunksF (i.length + 1) s total i

/-- `WavDemuxer::parse_headers`: prologue + fmt, `analyze_fmt`, then the
chunk scan.  On success the returned rest is positioned at the start of the
`data` payload (or at the point where the chunk-scan loop stopped). -/
def parseHeaders (s : WavDemuxer) (input : Bytes) :
    Except NErr (Bytes × WavDemuxer) :=
  match parseHeaderFmt input with
  | .error e => .error e
  | .ok (i, f) => scanChunks (analyzeFmt s f) input.length i

/-- `av_format::error::Error` variants this crate produces. -/
inductive AvError where
  | moreDataNeeded (n : Nat)
  | invalidData
deriving DecidableEq

/-- `av_data::audiosample::Soniton` as constructed by
`Soniton::new(bits, be, packed, planar, float, signed)`. -/
structure Soniton where
  bits : Nat
  be : Bool
  packed : Bool
  planar : Bool
  float : Bool
  signed : Bool
deriving DecidableEq

/-- The sample-format branch of `read_headers`. -/
def mkSoniton (s : WavDemuxer) : Soniton :=
  if s.cname = "pcm" then
    if s.format.format_tag ≠ PCM_FLOAT_FORMAT_ID then
      if s.format.bits_per_sample = 8 then
        ⟨8, false, false, false, false, false⟩
      else
        ⟨s.format.bits_per_sample, false, false, false, false, true⟩
    else
      ⟨s.format.bits_per_sample, false, false, false, true, false⟩
  else
    ⟨s.format.bits_per_sample, false, false, false, false, true⟩

/-- The `av_format::stream::Stream` record `read_headers` registers:
id/index 0, no start, the derived duration, timebase `1/samples_per_sec`,
codec parameters (extradata and codec id), and audio info (rate, a default
channel map of `channels` entries — modelled by its size — and the
soniton). -/
structure AvStream where
  sid : Nat
  sindex : Nat
  start : Option Nat
  duration : Option Nat
  timebase_num : Nat
  timebase_den : Nat
  extradata : Option Bytes
  codec_id : Option String
  rate : Nat
  channels : Nat
  soniton : Option Soniton
deriving DecidableEq

def mkStream (s : WavDemuxer) : AvStream :=
  { sid := 0
    sindex := 0
    start := none
    duration := some s.duration
    timebase_num := 1
    timebase_den := s.format.samples_per_sec
    extradata := s.format.edata
    codec_id := some s.cname
    rate := s.format.samples_per_sec
    channels := s.format.channels
    soniton := some (mkSoniton s) }

/-- `Demuxer::read_headers` for `WavDemuxer`: on success the new state, the
relative seek offset (`buf.data().offset(i)`) and the registered stream; on
`Err::Incomplete` a `MoreDataNeeded` estimate; any other error is
`InvalidData`. -/
def readHeaders (s : WavDemuxer) (input : Bytes) :
    Except AvError (WavDemuxer × Nat × AvStream) :=
  match parseHeaders s input with
  | .ok (i, s') => .ok (s', input.length - i.length, mkStream s')
  | .error (.incomplete n) =>
      .error (.moreDataNeeded
        (match n with
         | some sz => input.length + sz
         | none => 1024))
  | .error _ => .error .invalidData

/-- `av_data::packet::Packet` as built by `read_event` (fields the code
sets; `pos` is always `None` and `dts` always `None`).  The pts fits in i64
for all reachable values, so it is kept as `Option Nat`. -/
structure AvPacket where
  pdata : Bytes
  pts : Option Nat
  stream_index : Nat
  is_key : Bool
  is_corrupted : Bool
deriving DecidableEq

/-- The two `av_format::demuxer::Event`s `read_event` can produce. -/
inductive AvEvent where
  | newPacket (p : AvPacket)
  | eofEvent
deriving DecidableEq

/-- `u16::leading_zeros` for a value below `2 ^ 16`, written as an explicit
comparison table so that it evaluates by kernel reduction. -/
def u16lz (n : Nat) : Nat :=
  if n < 1 then 16 else if n < 2 then 15 else if n < 4 then 14
  else if n < 8 then 13 else if n < 16 then 12 else if n < 32 then 11
  else if n < 64 then 10 else if n < 128 then 9 else if n < 256 then 8
  else if n < 512 then 7 else if n < 1024 then 6 else if n < 2048 then 5
  else if n < 4096 then 4 else if n < 8192 then 3 else if n < 16384 then 2
  else if n < 32768 then 1 else 0

/-- The PCM block-size normalization in `read_event`:
`block_align << block_align.leading_zeros().saturating_sub(8)` on u16.
Saturating subtraction is `Nat` subtraction and the u16 shift keeps the low
16 bits. -/
def blockSize (s : WavDemuxer) : Nat :=
  if s.is_pcm then
    (s.format.block_align <<< (u16lz s.format.block_align - 8)) % 2 ^ 16
  else s.format.block_align

/-- `Demuxer::read_event` for `WavDemuxer`: take one block from the window;
on `ErrorKind::Eof` report `Event::Eof` with seek 0 (not an error), on any
other parse failure `InvalidData`; otherwise emit the packet, update
`data_pos` to the consumed offset and seek there. -/
def readEvent (s : WavDemuxer) (window : Bytes) :
    Except AvError (WavDemuxer × Nat × AvEvent) :=
  let pts :=
    if s.format.avg_bytes_per_sec ≠ 0 then
      some (s.data_pos * s.format.samples_per_sec / s.format.avg_bytes_per_sec)
    else none
  match getData window (blockSize s) with
  | .ok (i, d) =>
      let dp := window.length - i.length
      .ok ({ s with data_pos := dp }, dp,
           .newPacket { pdata := d, pts := pts, stream_index := 0,
                        is_key := false, is_corrupted := false })
  | .error (.nerror e) =>
      match e with
      | .nomK .eofEK => .ok (s, 0, .eofEvent)
      | _ => .error .invalidData
  | .error _ => .error .invalidData

/-- `Descriptor::probe`: slices `data[..12]` (a panic — modelled as `none` —
when the input is shorter than 12 bytes) and returns confidence 12 when the
RIFF/WAVE prologue parses, 0 otherwise. -/
def probe (data : Bytes) : Option Nat :=
  if data.length < 12 then none
  else
    match headerP (data.take 12) with
    | .ok _ => some 12
    | .error _ => some 0

/-! ### Muxer (`muxer.rs`) -/

/-- `self.format.edata.as_ref().map(|buf| buf.len()).unwrap_or(0)`. -/
def edataLen (f : Format) : Nat := (f.edata.map List.length).getD 0

/-- The byte sequence `WavMuxer::write_header` builds in `buf`: prologue with
a zero RIFF-size placeholder, the fmt chunk (size 16 when `edata_len == 0`,
else `18 + edata_len`), the recomputed twocc and `avg_bytes_per_sec`
(u32 product wraps, then `>> 3`), the optional length-prefixed extradata, and
the opened data chunk with a zero size placeholder. -/
def muxHeaderBytes (f : Format) : Bytes :=
  let cname := (findCodecFromWavTwocc f.format_tag).getD "unknown"
  let twocc :=
    if cname = "pcm" then
      if f.format_tag ≠ PCM_FLOAT_FORMAT_ID then 1 else PCM_FLOAT_FORMAT_ID
    else f.format_tag
  let avg :=
    if cname = "pcm" then
      f.channels * f.samples_per_sec * f.bits_per_sample % 2 ^ 32 / 8
    else 0
  riffTag ++ u32le 0 ++ waveTag ++ fmtTag
    ++ u32le (if edataLen f = 0 then 16 else 18 + edataLen f)
    ++ u16le twocc ++ u16le f.channels ++ u32le f.samples_per_sec
    ++ u32le avg ++ u16le f.block_align ++ u16le f.bits_per_sample
    ++ (match f.edata with
        | some e => u16le (edataLen f) ++ e
        | none => [])
    ++ dataTag ++ u32le 0

/-- `Muxer::write_header` for `WavMuxer`: fails with `Error::InvalidData`
when `edata_len >= (1 << 16)` — before anything is written to the output —
otherwise emits `muxHeaderBytes`; `data_pos` afterwards is the length of the
emitted header. -/
def writeHeader (f : Format) : Except AvError Bytes :=
  if 2 ^ 16 ≤ edataLen f then .error .invalidData
  else .ok (muxHeaderBytes f)

/-- Overwrite the bytes of `l` at `pos ..= pos + b.length` with `b`. -/
def patchAt (l : Bytes) (pos : Nat) (b : Bytes) : Bytes :=
  l.take pos ++ b ++ l.drop (pos + b.length)

/-- `WavMuxer::patch_size`: with the write cursor at end-of-stream, compute
`size = len - pos`, seek back `size + 4`, overwrite the 4-byte size field
with `size as u32` (little endian), and restore the cursor to the end. -/
def patchSize (l : Bytes) (pos : Nat) : Bytes :=
  patchAt l (pos - 4) (u32le (l.length - pos))

/-- A full mux session: `write_header`, `write_packet` for each packet
(payload appended verbatim), then `write_trailer` (patch the data-chunk size
at `data_pos`, then the RIFF size at offset 8). -/
def muxWrite (f : Format) (pkts : List Bytes) : Except AvError Bytes :=
  match writeHeader f with
  | .error e => .error e
  | .ok h => .ok (patchSize (patchSize (h ++ pkts.flatten) h.length) 8)

/-- Equality of parse and demux results is decidable (needed so that the
concrete-input theorems can be settled by evaluation). -/
instance {e a : Type} [DecidableEq e] [DecidableEq a] : DecidableEq (Except e a) :=
  fun x y =>
    match x, y with
    | .ok v, .ok w =>
        if h : v = w then .isTrue (by rw [h]) else .isFalse (by simp [h])
    | .error v, .error w =>
        if h : v = w then .isTrue (by rw [h]) else .isFalse (by simp [h])
    | .ok _, .error _ => .isFalse (by simp)
    | .error _, .ok _ => .isFalse (by simp)

/-! ### Helper predicates and concrete inputs used by the claim theorems -/

/-- Whether a result is a success. -/
def isOkE {ε α : Type} : Except ε α → Bool
  | .ok _ => true
  | .error _ => false

/-- Whether `read_headers` reported `MoreDataNeeded`. -/
def isMoreDataNeededR (r : Except AvError (WavDemuxer × Nat × AvStream)) : Bool :=
  match r with
  | .error (.moreDataNeeded _) => true
  | _ => false

/-- A parametric fmt-chunk window: tag, declared size, the five fixed fields,
then a caller-chosen tail. -/
def fmtChunkBytes (cs ftag ch sr avg ba : Nat) (tail : Bytes) : Bytes :=
  fmtTag ++ (u32le cs ++ (u16le ftag ++ (u16le ch ++ (u32le sr
    ++ (u32le avg ++ (u16le ba ++ tail))))))

/-- The end-to-end scenario bytes of the spec:
"RIFF"+u32(36)+"WAVE"+"fmt "+u32(16)+u16(1)+u16(1)+u32(8000)+u32(8000)+
u16(1)+u16(8)+"data"+u32(4)+[1,2,3,4]. -/
def c3bytes : Bytes :=
  riffTag ++ u32le 36 ++ waveTag
    ++ fmtTag ++ u32le 16 ++ u16le 1 ++ u16le 1 ++ u32le 8000 ++ u32le 8000
    ++ u16le 1 ++ u16le 8
    ++ dataTag ++ u32le 4 ++ [1, 2, 3, 4]

/-- A strict prefix of a valid WAV header: the prologue cut one byte short. -/
def c4prefix : Bytes := c3bytes.take 11

/-- A Streaming-state session for an 8-bit mono PCM stream. -/
def c5state : WavDemuxer :=
  { format := { format_tag := 1, channels := 1, samples_per_sec := 8000,
                avg_bytes_per_sec := 8000, block_align := 1,
                bits_per_sample := 8 }
    cname := "pcm"
    is_pcm := true }

/-- A PCM format with no extradata, as a demuxer fills it in. -/
def pcmFmtNoEdata : Format :=
  { format_tag := 1, channels := 1, samples_per_sec := 8000,
    avg_bytes_per_sec := 8000, block_align := 1, bits_per_sample := 8 }

/-- A format whose extradata is exactly 65536 bytes. -/
def fmtBigEdata : Format :=
  { pcmFmtNoEdata with edata := some (List.replicate 65536 0) }

/-! ### Helper lemmas about the parsing primitives -/

theorem takeP_exact {l : Bytes} {n : Nat} (r : Bytes) (h : l.length = n) :
    takeP n (l ++ r) = .ok (r, l) := by
  subst h
  simp [takeP, List.drop_left, List.take_left]

theorem tagP_exact (t r : Bytes) : tagP t (t ++ r) = .ok (r, t) := by
  simp [tagP, List.take_left, List.drop_left]

theorem leU16_enc {x : Nat} (r : Bytes) (h : x < 2 ^ 16) :
    leU16 (u16le x ++ r) = .ok (r, x) := by
  simp only [u16le, List.cons_append, List.nil_append, leU16]
  congr 1
  ext
  · rfl
  · simp only
    omega

theorem leU32_enc {x : Nat} (r : Bytes) (h : x < 2 ^ 32) :
    leU32 (u32le x ++ r) = .ok (r, x) := by
  simp only [u32le, List.cons_append, List.nil_append, leU32]
  congr 1
  ext
  · rfl
  · simp only
    omega

theorem takeP_ok_length {n : Nat} {input rest d : Bytes}
    (h : takeP n input = .ok (rest, d)) :
    rest.length + n = input.length ∧ d.length = n := by
  unfold takeP at h
  split at h
  · next hle =>
    injection h with h
    injection h with h1 h2
    subst h1 h2
    constructor
    · simp
      omega
    · simp
      omega
  · exact absurd h (by simp)

theorem leU16_ok_length {input rest : Bytes} {v : Nat}
    (h : leU16 input = .ok (rest, v)) : rest.length + 2 = input.length := by
  unfold leU16 at h
  match input, h with
  | b0 :: b1 :: r, h =>
    injection h with h
    injection h with h1 h2
    subst h1
    simp

theorem leU32_ok_length {input rest : Bytes} {v : Nat}
    (h : leU32 input = .ok (rest, v)) : rest.length + 4 = input.length := by
  unfold leU32 at h
  match input, h with
  | b0 :: b1 :: b2 :: b3 :: r, h =>
    injection h with h
    injection h with h1 h2
    subst h1
    simp

theorem readChunksType_ok_length {input rest t : Bytes} {sz : Nat}
    (h : readChunksType input = .ok (rest, (t, sz))) :
    rest.length + 8 = input.length := by
  unfold readChunksType at h
  cases htake : takeP 4 input with
  | error e => rw [htake] at h; simp [pbind] at h
  | ok p =>
    obtain ⟨i1, t'⟩ := p
    rw [htake] at h
    simp only [pbind] at h
    cases hle : leU32 i1 with
    | error e => rw [hle] at h; simp at h
    | ok q =>
      obtain ⟨i2, sz'⟩ := q
      rw [hle] at h
      simp only at h
      injection h with h
      injection h with h1 h2
      subst h1
      have h4 := (takeP_ok_length htake).1
      have h8 := leU32_ok_length hle
      omega

/-- A convenient evaluation of `readChunksType` on an encoded chunk header. -/
theorem readChunksType_enc {t : Bytes} {sz : Nat} (r : Bytes)
    (ht : t.length = 4) (hsz : sz < 2 ^ 32) :
    readChunksType (t ++ (u32le sz ++ r)) = .ok (r, (t, sz)) := by
  unfold readChunksType
  rw [takeP_exact (u32le sz ++ r) ht]
  simp only [pbind]
  rw [leU32_enc r hsz]

/-! ### Fuel sufficiency for the chunk-scan loop -/

theorem scanChunksF_fuel {fuel1 fuel2 : Nat} :
    ∀ {i : Bytes} {s : WavDemuxer} {total : Nat},
      i.length < fuel1 → i.length < fuel2 →
      scanChunksF fuel1 s total i = scanChunksF fuel2 s total i := by
  induction fuel1 generalizing fuel2 with
  | zero => intro i s total h1 h2; omega
  | succ f1 ih =>
    intro i s total h1 h2
    match fuel2, h2 with
    | f2 + 1, h2 =>
      simp only [scanChunksF]
      cases hct : readChunksType i with
      | error e => rfl
      | ok p =>
        obtain ⟨inp, ctype, csize⟩ := p
        have hlen := readChunksType_ok_length hct
        simp only
        split
        · split
          · rfl
          · cases hd : readDuration inp with
            | error e => rfl
            | ok q =>
              obtain ⟨i2, d⟩ := q
              have hlen2 := leU32_ok_length hd
              exact ih (by omega) (by omega)
        · split
          · rfl
          · cases hs : skipChunk inp csize with
            | error e => rfl
            | ok q =>
              obtain ⟨i2, _⟩ := q
              have hlen2 := (takeP_ok_length hs).1
              exact ih (by omega) (by omega)

theorem scanChunksF_eq_scanChunks {fuel : Nat} {i : Bytes} {s : WavDemuxer}
    {total : Nat} (h : i.length < fuel) :
    scanChunksF fuel s total i = scanChunks s total i :=
  scanChunksF_fuel h (Nat.lt_succ_self i.length)

/-! ### The complete-flavour parsers never report `Err::Incomplete` -/

/-- Results that did not fail with `Err::Incomplete`. -/
def notIncomplete {α : Type} : Except NErr α → Prop
  | .error (.incomplete _) => False
  | _ => True

theorem takeP_notIncomplete (n : Nat) (input : Bytes) :
    notIncomplete (takeP n input) := by
  unfold takeP
  split <;> trivial

theorem tagP_notIncomplete (t input : Bytes) : notIncomplete (tagP t input) := by
  unfold tagP
  split <;> trivial

theorem leU16_notIncomplete (input : Bytes) : notIncomplete (leU16 input) := by
  unfold leU16
  split <;> trivial

theorem leU32_notIncomplete (input : Bytes) : notIncomplete (leU32 input) := by
  unfold leU32
  split <;> trivial

theorem pbind_notIncomplete {α β : Type} {r : PResult α}
    {f : Bytes → α → PResult β} (hr : notIncomplete r)
    (hf : ∀ i a, notIncomplete (f i a)) : notIncomplete (pbind r f) := by
  unfold pbind
  match r, hr with
  | .ok (i, a), _ => exact hf i a
  | .error (.nerror k), _ => trivial
  | .error (.nfailure k), _ => trivial

theorem readChunksType_notIncomplete (input : Bytes) :
    notIncomplete (readChunksType input) := by
  unfold readChunksType
  refine pbind_notIncomplete (takeP_notIncomplete 4 input) fun i1 t => ?_
  refine pbind_notIncomplete (leU32_notIncomplete i1) fun i2 sz => ?_
  trivial

theorem extradataP_notIncomplete (cs : Nat) (input : Bytes) :
    notIncomplete (extradataP cs input) := by
  unfold extradataP
  split
  · trivial
  · refine pbind_notIncomplete (leU16_notIncomplete input) fun i sz => ?_
    split
    · refine pbind_notIncomplete (takeP_notIncomplete sz i) fun i2 d => ?_
      trivial
    · trivial

theorem bitsPerSampleP_notIncomplete (cs : Nat) (input : Bytes) :
    notIncomplete (bitsPerSampleP cs input) := by
  unfold bitsPerSampleP
  split
  · exact leU16_notIncomplete input
  · trivial

theorem verifyFmtChunk_notIncomplete (input : Bytes) :
    notIncomplete (verifyFmtChunk input) := by
  unfold verifyFmtChunk
  apply pbind_notIncomplete (readChunksType_notIncomplete input)
  intro i tc
  split <;> trivial

theorem parseFmt_notIncomplete (input : Bytes) :
    notIncomplete (parseFmt input) := by
  unfold parseFmt
  refine pbind_notIncomplete (verifyFmtChunk_notIncomplete input) fun i tc => ?_
  refine pbind_notIncomplete (leU16_notIncomplete i) fun i1 a1 => ?_
  refine pbind_notIncomplete (leU16_notIncomplete i1) fun i2 a2 => ?_
  refine pbind_notIncomplete (leU32_notIncomplete i2) fun i3 a3 => ?_
  refine pbind_notIncomplete (leU32_notIncomplete i3) fun i4 a4 => ?_
  refine pbind_notIncomplete (leU16_notIncomplete i4) fun i5 a5 => ?_
  refine pbind_notIncomplete (bitsPerSampleP_notIncomplete tc.2 i5) fun i6 a6 => ?_
  refine pbind_notIncomplete (extradataP_notIncomplete tc.2 i6) fun i7 a7 => ?_
  trivial

theorem headerP_notIncomplete (input : Bytes) : notIncomplete (headerP input) := by
  unfold headerP
  refine pbind_notIncomplete (tagP_notIncomplete riffTag input) fun i1 m1 => ?_
  refine pbind_notIncomplete (leU32_notIncomplete i1) fun i2 sz => ?_
  refine pbind_notIncomplete (tagP_notIncomplete waveTag i2) fun i3 m2 => ?_
  trivial

theorem parseHeaderFmt_notIncomplete (input : Bytes) :
    notIncomplete (parseHeaderFmt input) := by
  unfold parseHeaderFmt
  exact pbind_notIncomplete (headerP_notIncomplete input)
    fun i _ => parseFmt_notIncomplete i

theorem scanChunksF_notIncomplete (fuel : Nat) (s : WavDemuxer) (total : Nat)
    (i : Bytes) : notIncomplete (scanChunksF fuel s total i) := by
  induction fuel generalizing s i with
  | zero => trivial
  | succ f ih =>
    simp only [scanChunksF]
    split
    · trivial
    · rename_i inp ctype csize heq
      split
      · split
        · trivial
        · split
          · rename_i e heq2
            have hni : notIncomplete (readDuration inp) := leU32_notIncomplete inp
            rw [heq2] at hni
            cases e with
            | nerror k => trivial
            | nfailure k => trivial
            | incomplete n => exact hni.elim
          · exact ih _ _
      · split
        · trivial
        · split
          · rename_i e heq2
            have hni : notIncomplete (skipChunk inp csize) :=
              takeP_notIncomplete csize inp
            rw [heq2] at hni
            cases e with
            | nerror k => trivial
            | nfailure k => trivial
            | incomplete n => exact hni.elim
          · exact ih _ _

theorem parseHeaders_notIncomplete (s : WavDemuxer) (input : Bytes) :
    notIncomplete (parseHeaders s input) := by
  unfold parseHeaders
  cases hpf : parseHeaderFmt input with
  | error e =>
    have := parseHeaderFmt_notIncomplete input
    rw [hpf] at this
    cases e <;> simpa using this
  | ok p =>
    obtain ⟨i, f⟩ := p
    exact scanChunksF_notIncomplete _ _ _ _

/-! ### Claim theorems -/

/-- Claim C3, counterexample: on the exact end-to-end scenario bytes
("RIFF"+u32(36)+"WAVE"+"fmt "+u32(16)+fixed fields+u16(8)+"data"+u32(4)+
[1,2,3,4]) `read_headers` does not succeed at all, so it yields neither the
claimed PCM stream nor any packets. -/
theorem c3_counterexample : isOkE (readHeaders {} c3bytes) = false := by decide

/-- Claim C3, amended: on the exact scenario bytes `read_headers` fails with
`InvalidData`, because `extradata` rejects the declared fmt chunk size 16
(every chunk size below 17) with custom error 100. -/
theorem c3_scenario_amended : readHeaders {} c3bytes = .error .invalidData := by
  decide

/-- Claim C4, counterexample: on a strict prefix of a valid WAV header (the
prologue cut to 11 bytes) `read_headers` fails with the terminal
`InvalidData`, not with `NeedMoreData`. -/
theorem c4_counterexample : readHeaders {} c4prefix = .error .invalidData := by
  decide

/-- Claim C4, amended: `read_headers` never reports `MoreDataNeeded` on any
window whatsoever — all parsers come from nom's `complete` family, so the
`Err::Incomplete` arm that would produce it is unreachable. -/
theorem c4_never_more_data_needed (s : WavDemuxer) (input : Bytes) :
    isMoreDataNeededR (readHeaders s input) = false := by
  have h := parseHeaders_notIncomplete s input
  unfold readHeaders
  cases hp : parseHeaders s input with
  | ok p =>
    obtain ⟨i, s'⟩ := p
    rfl
  | error e =>
    rw [hp] at h
    cases e with
    | nerror k => rfl
    | nfailure k => rfl
    | incomplete n => exact h.elim

/-- Claim C5: in the Streaming state, whenever the window holds fewer bytes
than the computed block size, `read_event` returns the `Eof` event with seek
0 — a success value, never an error kind. -/
theorem c5_eof_on_short_window (s : WavDemuxer) (window : Bytes)
    (h : window.length < blockSize s) :
    readEvent s window = .ok (s, 0, .eofEvent) := by
  have hno : ¬ blockSize s ≤ window.length := by omega
  simp only [readEvent, getData, takeP, if_neg hno]

/-- Claim C5, witness: an 8-bit mono PCM session normalizes block_align 1 to
block size 128, and a 4-byte window yields `Eof`. -/
theorem c5_eof_on_short_window_witness :
    ([1, 2, 3, 4] : Bytes).length < blockSize c5state ∧
      readEvent c5state [1, 2, 3, 4] = .ok (c5state, 0, .eofEvent) :=
  ⟨by decide, c5_eof_on_short_window c5state [1, 2, 3, 4] (by decide)⟩

/-- Claim C9: `write_header` rejects any format whose extradata length is at
least 65536 with `Error::InvalidData` (the mux-time configuration error),
and by construction emits no bytes: the error is raised before anything is
written to the output stream. -/
theorem c9_mux_rejection (f : Format) (h : 2 ^ 16 ≤ edataLen f) :
    writeHeader f = .error .invalidData := by
  unfold writeHeader
  rw [if_pos h]

/-- Claim C9, witness: a format with exactly 65536 bytes of extradata is
rejected. -/
theorem c9_mux_rejection_witness :
    2 ^ 16 ≤ edataLen fmtBigEdata ∧
      writeHeader fmtBigEdata = .error .invalidData := by
  have he : edataLen fmtBigEdata = 65536 := by
    simp only [fmtBigEdata, edataLen, Option.map_some', Option.getD_some,
      List.length_replicate]
  exact ⟨by omega, c9_mux_rejection fmtBigEdata (by omega)⟩

theorem tagP_cons4 {t : Bytes} (ht : t.length = 4) (b0 b1 b2 b3 : Nat) (r : Bytes) :
    tagP t (b0 :: b1 :: b2 :: b3 :: r)
      = if [b0, b1, b2, b3] = t then .ok (r, t)
        else .error (.nerror (.nomK .tagEK)) := by
  unfold tagP
  rw [ht]
  simp [List.take, List.drop]

theorem c10_probe :
    (∀ data : Bytes, data.length < 12 → probe data = none) ∧
    (∀ (b0 b1 b2 b3 b4 b5 b6 b7 b8 b9 b10 b11 : Nat) (rest : Bytes),
      (probe (b0 :: b1 :: b2 :: b3 :: b4 :: b5 :: b6 :: b7 :: b8 :: b9 :: b10
          :: b11 :: rest) = some 12
        ↔ ([b0, b1, b2, b3] = riffTag ∧ [b8, b9, b10, b11] = waveTag)) ∧
      (¬ ([b0, b1, b2, b3] = riffTag ∧ [b8, b9, b10, b11] = waveTag) →
        probe (b0 :: b1 :: b2 :: b3 :: b4 :: b5 :: b6 :: b7 :: b8 :: b9 :: b10
          :: b11 :: rest) = some 0)) := by
  constructor
  · intro data h
    unfold probe
    rw [if_pos h]
  · intro b0 b1 b2 b3 b4 b5 b6 b7 b8 b9 b10 b11 rest
    have hlen : ¬ (b0 :: b1 :: b2 :: b3 :: b4 :: b5 :: b6 :: b7 :: b8 :: b9
        :: b10 :: b11 :: rest).length < 12 := by
      simp
    have htake : (b0 :: b1 :: b2 :: b3 :: b4 :: b5 :: b6 :: b7 :: b8 :: b9
        :: b10 :: b11 :: rest).take 12
        = [b0, b1, b2, b3, b4, b5, b6, b7, b8, b9, b10, b11] := by
      simp [List.take]
    by_cases hr : [b0, b1, b2, b3] = riffTag
    · by_cases hw : [b8, b9, b10, b11] = waveTag
      · have hp : probe (b0 :: b1 :: b2 :: b3 :: b4 :: b5 :: b6 :: b7 :: b8
            :: b9 :: b10 :: b11 :: rest) = some 12 := by
          unfold probe
          rw [if_neg hlen, htake]
          have h1 : headerP [b0, b1, b2, b3, b4, b5, b6, b7, b8, b9, b10, b11]
              = .ok ([], ⟨riffTag, b4 + 256 * b5 + 65536 * b6 + 16777216 * b7,
                          waveTag⟩) := by
            show pbind (tagP riffTag (b0 :: b1 :: b2 :: b3 :: (b4 :: b5 :: b6
              :: b7 :: b8 :: b9 :: b10 :: b11 :: []))) _ = _
            rw [tagP_cons4 (by rfl), if_pos hr]
            simp only [pbind, leU32]
            rw [tagP_cons4 (by rfl), if_pos hw]
          rw [h1]
        rw [hp]
        simp [hr, hw]
      · have hp : probe (b0 :: b1 :: b2 :: b3 :: b4 :: b5 :: b6 :: b7 :: b8
            :: b9 :: b10 :: b11 :: rest) = some 0 := by
          unfold probe
          rw [if_neg hlen, htake]
          have h1 : headerP [b0, b1, b2, b3, b4, b5, b6, b7, b8, b9, b10, b11]
              = .error (.nerror (.nomK .tagEK)) := by
            show pbind (tagP riffTag (b0 :: b1 :: b2 :: b3 :: (b4 :: b5 :: b6
              :: b7 :: b8 :: b9 :: b10 :: b11 :: []))) _ = _
            rw [tagP_cons4 (by rfl), if_pos hr]
            simp only [pbind, leU32]
            rw [tagP_cons4 (by rfl), if_neg hw]
          rw [h1]
        rw [hp]
        simp [hr, hw]
    · have hp : probe (b0 :: b1 :: b2 :: b3 :: b4 :: b5 :: b6 :: b7 :: b8
          :: b9 :: b10 :: b11 :: rest) = some 0 := by
        unfold probe
        rw [if_neg hlen, htake]
        have h1 : headerP [b0, b1, b2, b3, b4, b5, b6, b7, b8, b9, b10, b11]
            = .error (.nerror (.nomK .tagEK)) := by
          show pbind (tagP riffTag (b0 :: b1 :: b2 :: b3 :: (b4 :: b5 :: b6
            :: b7 :: b8 :: b9 :: b10 :: b11 :: []))) _ = _
          rw [tagP_cons4 (by rfl), if_neg hr]
          rfl
        rw [h1]
      rw [hp]
      simp [hr]

theorem c10_probe_witness :
    probe (riffTag ++ (u32le 36 ++ waveTag)) = some 12 ∧ probe [0, 1, 2] = none := by
  constructor
  · exact ((c10_probe.2 82 73 70 70 36 0 0 0 87 65 86 69 []).1).mpr
      (by constructor <;> rfl)
  · exact c10_probe.1 [0, 1, 2] (by simp)

/-- One iteration of the chunk-scan loop, with the recursive occurrences
re-expressed through `scanChunks` (fuel is invisible at this level). -/
theorem scanChunks_unfold (s : WavDemuxer) (total : Nat) (i : Bytes) :
    scanChunks s total i
      = match readChunksType i with
        | .error _ => .ok (i, s)
        | .ok (inp, (ctype, csize)) =>
          if ctype = factTag then
            if csize ≠ 4 then .error (.nerror (.custom 1))
            else
              match readDuration inp with
              | .error e => .error e
              | .ok (i2, d) => scanChunks { s with duration := d } total i2
          else if ctype = dataTag then
            .ok (inp, { s with
                        data_pos := total - inp.length
                        data_end := total - inp.length + csize
                        duration := dataDuration s csize })
          else
            match skipChunk inp csize with
            | .error e => .error e
            | .ok (i2, _) => scanChunks s total i2 := by
  cases hct : readChunksType i with
  | error e => simp only [scanChunks, scanChunksF, hct]
  | ok p =>
    obtain ⟨inp, ctype, csize⟩ := p
    have hlen := readChunksType_ok_length hct
    simp only [scanChunks, scanChunksF, hct]
    split
    · split
      · rfl
      · cases hd : readDuration inp with
        | error e => rfl
        | ok q =>
          obtain ⟨i2, d⟩ := q
          have h2 := leU32_ok_length hd
          exact scanChunksF_eq_scanChunks (by omega)
    · split
      · rfl
      · cases hs : skipChunk inp csize with
        | error e => rfl
        | ok q =>
          obtain ⟨i2, _⟩ := q
          have h2 := (takeP_ok_length hs).1
          exact scanChunksF_eq_scanChunks (by omega)

/-- Claim C6: when the post-fmt chunk scan meets a "fact" chunk, a declared
size other than 4 aborts header parsing with custom error 1 (the structural
`Malformed` failure, surfaced as `InvalidData` by `read_headers`); a declared
size of exactly 4 reads a u32 sample count into the session duration and
continues the scan on the remaining bytes. -/
theorem c6_fact_validation (s : WavDemuxer) (total csize : Nat) (rest : Bytes)
    (hcs : csize < 2 ^ 32) :
    (csize ≠ 4 →
      scanChunks s total (factTag ++ (u32le csize ++ rest))
        = .error (.nerror (.custom 1))) ∧
    (∀ (d : Nat) (rest2 : Bytes), csize = 4 → d < 2 ^ 32 →
      rest = u32le d ++ rest2 →
      scanChunks s total (factTag ++ (u32le csize ++ rest))
        = scanChunks { s with duration := d } total rest2) := by
  constructor
  · intro hne
    have hct := readChunksType_enc (t := factTag) rest (by rfl) hcs
    rw [scanChunks_unfold, hct]
    simp [hne]
  · intro d rest2 h4 hd hr
    subst h4
    subst hr
    have hct4 := readChunksType_enc (t := factTag) (u32le d ++ rest2) (by rfl) hcs
    have hrd : readDuration (u32le d ++ rest2) = .ok (rest2, d) := leU32_enc rest2 hd
    rw [scanChunks_unfold, hct4]
    simp [hrd]

/-- Claim C6, witness: a "fact" chunk with declared size 5 aborts with custom
error 1, and one with declared size 4 records the sample count 777 and
continues scanning (here on an empty remainder). -/
theorem c6_fact_validation_witness :
    ((5 : Nat) ≠ 4 ∧
      scanChunks {} 0 (factTag ++ (u32le 5 ++ []))
        = .error (.nerror (.custom 1))) ∧
    scanChunks {} 20 (factTag ++ (u32le 4 ++ (u32le 777 ++ [])))
      = scanChunks { duration := 777 } 20 [] := by
  refine ⟨⟨by omega, (c6_fact_validation {} 0 5 [] (by omega)).1 (by omega)⟩, ?_⟩
  exact (c6_fact_validation {} 20 4 (u32le 777 ++ []) (by omega)).2 777 []
    rfl (by omega) rfl

/-- Claim C7: when the chunk scan finds the "data" chunk it records
`data_pos`/`data_end` and derives the duration: a nonzero previously-recorded
fact count gives `samples * 1000 / sample_rate`; otherwise a positive
`avg_bytes_per_sec` gives `data_size * 1000 / avg_bytes_per_sec`; otherwise
0.  The hypothesis mirrors that the Rust u64 division would panic were
`samples_per_sec` zero with a nonzero fact count.  The two concrete
conjuncts are the spec instances: fact count 4000 at 8000 Hz gives 500 ms,
and 4000 data bytes at 8000 average bytes/s give 500 ms. -/
theorem c7_duration_policy :
    (∀ (s : WavDemuxer) (total csize : Nat) (rest : Bytes), csize < 2 ^ 32 →
      (s.duration ≠ 0 → s.format.samples_per_sec ≠ 0) →
      scanChunks s total (dataTag ++ (u32le csize ++ rest))
        = .ok (rest,
            { s with
              data_pos := total - rest.length
              data_end := total - rest.length + csize
              duration :=
                if s.duration ≠ 0 then
                  s.duration * 1000 / s.format.samples_per_sec
                else if 0 < s.format.avg_bytes_per_sec then
                  csize * 1000 / s.format.avg_bytes_per_sec
                else 0 })) ∧
    scanChunks { format := { samples_per_sec := 8000 }, duration := 4000 } 8
        (dataTag ++ (u32le 4000 ++ []))
      = .ok ([], { format := { samples_per_sec := 8000 }, data_pos := 8,
                   data_end := 4008, duration := 500 }) ∧
    scanChunks { format := { samples_per_sec := 8000,
                             avg_bytes_per_sec := 8000 } } 8
        (dataTag ++ (u32le 4000 ++ []))
      = .ok ([], { format := { samples_per_sec := 8000,
                               avg_bytes_per_sec := 8000 },
                   data_pos := 8, data_end := 4008, duration := 500 }) := by
  refine ⟨?_, by decide, by decide⟩
  intro s total csize rest hcs hpanic
  have hct := readChunksType_enc (t := dataTag) rest (by rfl) hcs
  have hnf : dataTag ≠ factTag := by decide
  rw [scanChunks_unfold, hct]
  simp [hnf, dataDuration]

/-- Claim C7, witness: the general data-branch theorem applied at the first
concrete spec instance. -/
theorem c7_duration_policy_witness :
    scanChunks { format := { samples_per_sec := 8000 }, duration := 4000 } 8
        (dataTag ++ (u32le 4000 ++ []))
      = .ok ([], { format := { samples_per_sec := 8000 }, data_pos := 8,
                   data_end := 4008, duration := 500 }) := by
  have h := c7_duration_policy.1
    { format := { samples_per_sec := 8000 }, duration := 4000 } 8 4000 []
    (by omega) (by intro h1; decide)
  simpa using h

/-- Claim C8: at header-analysis time (`analyze_fmt`, called exactly once by
`parse_headers` right after the fmt chunk is parsed), a format whose resolved
codec name is "pcm" and whose declared `avg_bytes_per_sec` is 0 gets it
backfilled to `block_align * samples_per_sec`; any format whose tag does not
resolve to "pcm" keeps its declared value, even 0.  The concrete conjuncts:
tag 0x9999 resolves to "unknown" with `is_pcm == false` and avg left at 0,
while PCM with block_align 2 and rate 8000 is backfilled to 16000. -/
theorem c8_pcm_backfill :
    (∀ (s : WavDemuxer) (f : Format),
      (findCodecFromWavTwocc f.format_tag).getD "unknown" = "pcm" →
      f.avg_bytes_per_sec = 0 →
      f.block_align * f.samples_per_sec < 2 ^ 32 →
      (analyzeFmt s f).format.avg_bytes_per_sec
        = f.block_align * f.samples_per_sec) ∧
    (∀ (s : WavDemuxer) (f : Format),
      (findCodecFromWavTwocc f.format_tag).getD "unknown" ≠ "pcm" →
      (analyzeFmt s f).format.avg_bytes_per_sec = f.avg_bytes_per_sec) ∧
    ((analyzeFmt {} { format_tag := 0x9999 }).cname = "unknown" ∧
      (analyzeFmt {} { format_tag := 0x9999 }).is_pcm = false ∧
      (analyzeFmt {} { format_tag := 0x9999 }).format.avg_bytes_per_sec = 0) ∧
    (analyzeFmt {} { format_tag := 1, block_align := 2, samples_per_sec := 8000 }).format.avg_bytes_per_sec = 16000 := by
  refine ⟨?_, ?_, by decide, by decide⟩
  · intro s f h1 h2 h3
    simp only [analyzeFmt, h1, h2]
    simp
    omega
  · intro s f h1
    simp [analyzeFmt, h1]

/-- Claim C8, witness: the backfill branch applied at the concrete PCM
format, and the no-backfill branch at tag 0x9999 with declared avg 7. -/
theorem c8_pcm_backfill_witness :
    (analyzeFmt {} { format_tag := 1, block_align := 2, samples_per_sec := 8000 }).format.avg_bytes_per_sec = 2 * 8000 ∧
    (analyzeFmt {} { format_tag := 0x9999, avg_bytes_per_sec := 7 }).format.avg_bytes_per_sec = 7 := by
  constructor
  · exact c8_pcm_backfill.1 {} { format_tag := 1, block_align := 2, samples_per_sec := 8000 } (by decide) (by decide) (by decide)
  · exact c8_pcm_backfill.2.1 {} { format_tag := 0x9999, avg_bytes_per_sec := 7 } (by decide)

theorem verifyFmtChunk_enc {cs : Nat} (r : Bytes) (hcs : cs < 2 ^ 32) :
    verifyFmtChunk (fmtTag ++ (u32le cs ++ r)) = .ok (r, (fmtTag, cs)) := by
  unfold verifyFmtChunk
  rw [readChunksType_enc r (by rfl) hcs]
  simp [pbind]

/-- Claim C1, counterexample: a well-formed fmt chunk with the standard
declared chunk size 16 (the one from the end-to-end scenario) does not
parse: `extradata` rejects every chunk size below 17 with custom error 100,
so `parse_fmt` fails instead of succeeding with an explicit
bits_per_sample. -/
theorem c1_counterexample :
    parseFmt (fmtChunkBytes 16 1 1 8000 8000 1 (u16le 8 ++ []))
      = .error (.nerror (.custom 100)) := by decide

/-- Claim C1, amended: the fmt layout variants as the code implements them.
With the five fixed fields well-formed: a declared chunk size below 16 fails
with custom error 100 (no default-8 parse); chunk size 16 reads the explicit
bits_per_sample and then also fails with custom error 100; chunk size 17
succeeds, consuming bits_per_sample plus a u16 (read as the would-be
extradata length) and yielding no extradata — not a `Truncated` failure;
chunk size 18+N with declared extradata length N yields extradata of exactly
N bytes. -/
theorem c1_fmt_layout_amended (cs ftag ch sr avg ba : Nat)
    (hcs : cs < 2 ^ 32) (hftag : ftag < 2 ^ 16) (hch : ch < 2 ^ 16)
    (hsr : sr < 2 ^ 32) (havg : avg < 2 ^ 32) (hba : ba < 2 ^ 16) :
    (∀ tail : Bytes, cs < 16 →
      parseFmt (fmtChunkBytes cs ftag ch sr avg ba tail)
        = .error (.nerror (.custom 100))) ∧
    (∀ (bits : Nat) (t2 : Bytes), cs = 16 → bits < 2 ^ 16 →
      parseFmt (fmtChunkBytes cs ftag ch sr avg ba (u16le bits ++ t2))
        = .error (.nerror (.custom 100))) ∧
    (∀ (bits x : Nat) (t2 : Bytes), cs = 17 → bits < 2 ^ 16 → x < 2 ^ 16 →
      parseFmt (fmtChunkBytes cs ftag ch sr avg ba
          (u16le bits ++ (u16le x ++ t2)))
        = .ok (t2, { format_tag := ftag, channels := ch,
                     samples_per_sec := sr, avg_bytes_per_sec := avg,
                     block_align := ba, bits_per_sample := bits,
                     edata := none })) ∧
    (∀ (n bits : Nat) (ed t2 : Bytes), cs = 18 + n → 0 < n → bits < 2 ^ 16 →
      n < 2 ^ 16 → ed.length = n →
      parseFmt (fmtChunkBytes cs ftag ch sr avg ba
          (u16le bits ++ (u16le n ++ (ed ++ t2))))
        = .ok (t2, { format_tag := ftag, channels := ch,
                     samples_per_sec := sr, avg_bytes_per_sec := avg,
                     block_align := ba, bits_per_sample := bits,
                     edata := some ed })) := by
  refine ⟨?_, ?_, ?_, ?_⟩
  · intro tail hlt
    have ha1 : ¬ 16 ≤ cs := by omega
    have ha2 : cs < 17 := by omega
    simp only [parseFmt, fmtChunkBytes, verifyFmtChunk_enc _ hcs, pbind,
      leU16_enc _ hftag, leU16_enc _ hch, leU32_enc _ hsr, leU32_enc _ havg,
      leU16_enc _ hba, bitsPerSampleP, extradataP, ha1, ha2]
    simp
  · intro bits t2 h16 hbits
    subst h16
    simp only [parseFmt, fmtChunkBytes, verifyFmtChunk_enc _ hcs, pbind,
      leU16_enc _ hftag, leU16_enc _ hch, leU32_enc _ hsr, leU32_enc _ havg,
      leU16_enc _ hba, bitsPerSampleP, extradataP, leU16_enc _ hbits]
    simp [pbind]
  · intro bits x t2 h17 hbits hx
    subst h17
    simp only [parseFmt, fmtChunkBytes, verifyFmtChunk_enc _ hcs, pbind,
      leU16_enc _ hftag, leU16_enc _ hch, leU32_enc _ hsr, leU32_enc _ havg,
      leU16_enc _ hba, bitsPerSampleP, extradataP, leU16_enc _ hbits]
    simp
    rw [leU16_enc t2 hx]
  · intro n bits ed t2 h18 hn hbits hnlt hed
    subst h18
    have ha1 : 16 ≤ 18 + n := by omega
    have ha2 : ¬ 18 + n < 17 := by omega
    have ha3 : 18 ≤ 18 + n := by omega
    simp only [parseFmt, fmtChunkBytes, verifyFmtChunk_enc _ hcs, pbind,
      leU16_enc _ hftag, leU16_enc _ hch, leU32_enc _ hsr, leU32_enc _ havg,
      leU16_enc _ hba, bitsPerSampleP, extradataP, leU16_enc _ hbits,
      ha1, ha2, ha3]
    simp
    rw [leU16_enc (ed ++ t2) hnlt]
    simp [takeP_exact t2 hed]

/-- Claim C1, witness: the amended layout behaviour at concrete inputs —
chunk size 12 fails with custom error 100, chunk size 17 succeeds with no
extradata, and chunk size 21 with declared length 3 yields the 3 declared
extradata bytes. -/
theorem c1_fmt_layout_amended_witness :
    parseFmt (fmtChunkBytes 12 1 1 8000 8000 1 [])
      = .error (.nerror (.custom 100)) ∧
    parseFmt (fmtChunkBytes 17 1 1 8000 8000 1 (u16le 8 ++ (u16le 5 ++ [7])))
      = .ok ([7], { format_tag := 1, channels := 1, samples_per_sec := 8000,
                    avg_bytes_per_sec := 8000, block_align := 1,
                    bits_per_sample := 8, edata := none }) ∧
    parseFmt (fmtChunkBytes 21 1 1 8000 8000 1
        (u16le 8 ++ (u16le 3 ++ ([5, 6, 7] ++ [9]))))
      = .ok ([9], { format_tag := 1, channels := 1, samples_per_sec := 8000,
                    avg_bytes_per_sec := 8000, block_align := 1,
                    bits_per_sample := 8, edata := some [5, 6, 7] }) := by
  refine ⟨?_, ?_, ?_⟩
  · exact (c1_fmt_layout_amended 12 1 1 8000 8000 1 (by omega) (by omega)
      (by omega) (by omega) (by omega) (by omega)).1 [] (by omega)
  · exact (c1_fmt_layout_amended 17 1 1 8000 8000 1 (by omega) (by omega)
      (by omega) (by omega) (by omega) (by omega)).2.2.1 8 5 [7] rfl
      (by omega) (by omega)
  · exact (c1_fmt_layout_amended 21 1 1 8000 8000 1 (by omega) (by omega)
      (by omega) (by omega) (by omega) (by omega)).2.2.2 3 8 [5, 6, 7] [9]
      rfl (by omega) (by omega) (by omega) rfl

theorem u32le_length (x : Nat) : (u32le x).length = 4 := rfl

theorem drop_append_ge {A B : Bytes} {pos : Nat} (h : A.length ≤ pos) :
    (A ++ B).drop pos = B.drop (pos - A.length) := by
  have h1 : pos - A.length + A.length = pos := by omega
  calc (A ++ B).drop pos
      = (A ++ B).drop (pos - A.length + A.length) := by rw [h1]
    _ = ((A ++ B).drop A.length).drop (pos - A.length) := by
        rw [List.drop_drop, Nat.add_comm]
    _ = B.drop (pos - A.length) := by rw [List.drop_left]

theorem patchAt_length {l b : Bytes} {pos : Nat} (h : pos + b.length ≤ l.length) :
    (patchAt l pos b).length = l.length := by
  simp [patchAt]
  omega

theorem patchAt_extract {l b : Bytes} {pos : Nat} (h : pos + b.length ≤ l.length) :
    ((patchAt l pos b).drop pos).take b.length = b := by
  unfold patchAt
  have h1 : (l.take pos).length = pos := by simp; omega
  rw [List.append_assoc]
  rw [drop_append_ge (le_of_eq h1)]
  rw [h1, Nat.sub_self, List.drop_zero]
  exact List.take_left b _

theorem patchAt_drop_ge {l b : Bytes} {pos n : Nat}
    (hpl : pos + b.length ≤ l.length) (hn : pos + b.length ≤ n) :
    (patchAt l pos b).drop n = l.drop n := by
  unfold patchAt
  have h1 : (l.take pos ++ b).length = pos + b.length := by simp; omega
  rw [drop_append_ge (by rw [h1]; omega)]
  rw [h1, List.drop_drop]
  congr 1
  omega

theorem muxHeaderBytes_length_ge (f : Format) :
    44 ≤ (muxHeaderBytes f).length := by
  cases he : f.edata with
  | none =>
    simp [muxHeaderBytes, he, u16le, u32le, riffTag, waveTag, fmtTag, dataTag]
  | some e =>
    simp [muxHeaderBytes, he, u16le, u32le, riffTag, waveTag, fmtTag, dataTag]

/-- Claim C2, counterexample: the demux step of the round trip already fails
on a valid WAV byte stream (the end-to-end scenario bytes): `parse_headers`
rejects the standard chunk-size-16 fmt chunk with custom error 100, so no
round trip can reproduce the stream. -/
theorem c2_counterexample :
    parseHeaders {} c3bytes = .error (.nerror (.custom 100)) ∧
    isOkE (parseHeaders {} c3bytes) = false := by
  constructor <;> decide

/-- Claim C2, amended: the muxer alone keeps its size-field promise — for
every format (extradata below 65536) and packet sequence, the trailer-patched
output has its RIFF-size field (bytes 4..8) equal to the total written bytes
minus 8 and its data-size field (the 4 bytes right before the payload) equal
to the number of payload bytes, with the payload appended verbatim.  The
round trip itself fails: re-demuxing the muxer's own no-extradata output
(fmt chunk size 16) is rejected with `InvalidData`. -/
theorem c2_mux_sizes_amended :
    (∀ (f : Format) (pkts : List Bytes), edataLen f < 2 ^ 16 →
      ∃ out, muxWrite f pkts = .ok out ∧
        out.length = (muxHeaderBytes f).length + pkts.flatten.length ∧
        (out.drop 4).take 4 = u32le (out.length - 8) ∧
        (out.drop ((muxHeaderBytes f).length - 4)).take 4
          = u32le pkts.flatten.length ∧
        out.drop (muxHeaderBytes f).length = pkts.flatten) ∧
    (∃ pcmOut, muxWrite pcmFmtNoEdata [[9, 9]] = .ok pcmOut ∧
      readHeaders {} pcmOut = .error .invalidData) := by
  constructor
  · intro f pkts hlen
    have hno : ¬ 2 ^ 16 ≤ edataLen f := by omega
    have h44 := muxHeaderBytes_length_ge f
    have hmux : muxWrite f pkts
        = .ok (patchSize (patchSize (muxHeaderBytes f ++ pkts.flatten)
            (muxHeaderBytes f).length) 8) := by
      unfold muxWrite writeHeader
      rw [if_neg hno]
    have hJlen : (muxHeaderBytes f ++ pkts.flatten).length
        - (muxHeaderBytes f).length = pkts.flatten.length := by
      simp
    have hp1 : patchSize (muxHeaderBytes f ++ pkts.flatten)
          (muxHeaderBytes f).length
        = patchAt (muxHeaderBytes f ++ pkts.flatten)
            ((muxHeaderBytes f).length - 4) (u32le pkts.flatten.length) := by
      unfold patchSize
      rw [hJlen]
    have hppos : (muxHeaderBytes f).length - 4 + (u32le pkts.flatten.length).length
        ≤ (muxHeaderBytes f ++ pkts.flatten).length := by
      simp [u32le_length]
      omega
    have hp1len : (patchAt (muxHeaderBytes f ++ pkts.flatten)
          ((muxHeaderBytes f).length - 4) (u32le pkts.flatten.length)).length
        = (muxHeaderBytes f).length + pkts.flatten.length := by
      rw [patchAt_length hppos]
      simp
    have hout : patchSize (patchAt (muxHeaderBytes f ++ pkts.flatten)
          ((muxHeaderBytes f).length - 4) (u32le pkts.flatten.length)) 8
        = patchAt (patchAt (muxHeaderBytes f ++ pkts.flatten)
            ((muxHeaderBytes f).length - 4) (u32le pkts.flatten.length)) 4
            (u32le ((muxHeaderBytes f).length + pkts.flatten.length - 8)) := by
      unfold patchSize
      rw [hp1len]
    have hqpos : 4 + (u32le ((muxHeaderBytes f).length
          + pkts.flatten.length - 8)).length
        ≤ (patchAt (muxHeaderBytes f ++ pkts.flatten)
            ((muxHeaderBytes f).length - 4) (u32le pkts.flatten.length)).length := by
      rw [hp1len, u32le_length]
      omega
    rw [hmux, hp1, hout]
    refine ⟨_, rfl, ?_, ?_, ?_, ?_⟩
    · rw [patchAt_length hqpos, hp1len]
    · rw [patchAt_length hqpos, hp1len]
      have := patchAt_extract hqpos
      rw [u32le_length] at this
      exact this
    · have hdrop : (patchAt (patchAt (muxHeaderBytes f ++ pkts.flatten)
            ((muxHeaderBytes f).length - 4) (u32le pkts.flatten.length)) 4
            (u32le ((muxHeaderBytes f).length + pkts.flatten.length - 8))).drop
            ((muxHeaderBytes f).length - 4)
          = (patchAt (muxHeaderBytes f ++ pkts.flatten)
              ((muxHeaderBytes f).length - 4)
              (u32le pkts.flatten.length)).drop
              ((muxHeaderBytes f).length - 4) := by
        apply patchAt_drop_ge
        · rw [hp1len, u32le_length]
          omega
        · rw [u32le_length]
          omega
      rw [hdrop]
      have := patchAt_extract hppos
      rw [u32le_length] at this
      exact this
    · have hdrop : (patchAt (patchAt (muxHeaderBytes f ++ pkts.flatten)
            ((muxHeaderBytes f).length - 4) (u32le pkts.flatten.length)) 4
            (u32le ((muxHeaderBytes f).length + pkts.flatten.length - 8))).drop
            (muxHeaderBytes f).length
          = (patchAt (muxHeaderBytes f ++ pkts.flatten)
              ((muxHeaderBytes f).length - 4)
              (u32le pkts.flatten.length)).drop (muxHeaderBytes f).length := by
        apply patchAt_drop_ge
        · rw [hp1len, u32le_length]
          omega
        · rw [u32le_length]
          omega
      rw [hdrop]
      have hdrop2 : (patchAt (muxHeaderBytes f ++ pkts.flatten)
            ((muxHeaderBytes f).length - 4)
            (u32le pkts.flatten.length)).drop (muxHeaderBytes f).length
          = (muxHeaderBytes f ++ pkts.flatten).drop (muxHeaderBytes f).length := by
        apply patchAt_drop_ge
        · exact hppos
        · rw [u32le_length]
          omega
      rw [hdrop2, List.drop_left]
  · exact ⟨_, rfl, by decide⟩

/-- Claim C2, witness: the size-field theorem applied to the concrete PCM
format and a single two-byte packet. -/
theorem c2_mux_sizes_amended_witness :
    edataLen pcmFmtNoEdata < 2 ^ 16 ∧
    (∃ out, muxWrite pcmFmtNoEdata [[9, 9]] = .ok out ∧
      out.length = (muxHeaderBytes pcmFmtNoEdata).length
          + ([[9, 9]] : List Bytes).flatten.length ∧
      (out.drop 4).take 4 = u32le (out.length - 8) ∧
      (out.drop ((muxHeaderBytes pcmFmtNoEdata).length - 4)).take 4
        = u32le ([[9, 9]] : List Bytes).flatten.length ∧
      out.drop (muxHeaderBytes pcmFmtNoEdata).length
        = ([[9, 9]] : List Bytes).flatten) :=
  ⟨by decide, c2_mux_sizes_amended.1 pcmFmtNoEdata [[9, 9]] (by decide)⟩
